import Mathlib

/-!
# Verification of the Recommendation_Generator core

Shallow embedding of the recommendation service found in
`src/Recommendation_Generator` (Python): the line-oriented parser
(`recommender/parse.py`), the input validator (`recommender/schemas.py`),
the prompt builder (`recommender/prompt.py`), the resilient model client
(`recommender/client.py`) and the Service Facade described in the design
document (the facade module itself is not present in the source tree; it
is modelled from the specification and marked as such below).

Modelling conventions:
* Python strings are embedded as `List Char`; `String` is used at the
  borders where convenient.
* Python whitespace (`str.strip`, regex `\s`) is modelled by the ASCII
  whitespace characters; all inputs appearing in the theorems below are
  ASCII (plus the em/en dashes handled by the parser).
* The regular expressions of `parse.py` are embedded by their operational
  semantics, derived by hand from the backtracking behaviour of Python's
  `re` engine; comments on each definition record the derivation.
* Machine integers are embedded as `Int`/`Nat` (no overflow is possible at
  the sizes involved); the float backoff interval is embedded as `ℚ`
  (the program only multiplies it by small attempt counters).
* Fallible code returns `Except`; raised Python exceptions are explicit
  `PyErr` values.
-/

namespace RecommenderModel

/-- ASCII whitespace, modelling Python's `str.strip()` / regex `\s`. -/
def isWs (c : Char) : Bool :=
  c = ' ' || c = '\t' || c = '\n' || c = '\r' || c = '\x0b' || c = '\x0c'

/-- The dash-like separator characters of `parse.py`'s regexes:
hyphen-minus, em dash and en dash (the character class `[-—–]`). -/
def isDashCh (c : Char) : Bool :=
  c = '-' || c = '—' || c = '–'

/-- Left-trim of whitespace (`lstrip`). -/
def ltrimWs (s : List Char) : List Char :=
  s.dropWhile isWs

/-- Right-trim of whitespace (`rstrip`). -/
def rtrimWs (s : List Char) : List Char :=
  (s.reverse.dropWhile isWs).reverse

/-- Python `str.strip()` (both ends). -/
def trimWs (s : List Char) : List Char :=
  rtrimWs (ltrimWs s)

/-- Membership in the strip set of `strip(" \"' ")`: space, double quote,
single quote. -/
def isQuoteSpace (c : Char) : Bool :=
  c = ' ' || c = '"' || c = '\''

/-- Python `str.strip(" \"' ")`. -/
def stripQuoteSpace (s : List Char) : List Char :=
  ((s.dropWhile isQuoteSpace).reverse.dropWhile isQuoteSpace).reverse

/-- Python `str.lower()` (ASCII case folding suffices for the inputs at
hand). -/
def lowerStr (s : List Char) : List Char :=
  s.map Char.toLower

/-- Split a string at its first dash-like character: returns the segment
before the first dash and the segment after it, or `none` when no dash
occurs. -/
def splitAtFirstDash (s : List Char) : Option (List Char × List Char) :=
  match s.dropWhile (fun c => !(isDashCh c)) with
  | [] => none
  | _ :: suf => some (s.takeWhile (fun c => !(isDashCh c)), suf)

/-- The numbered-index part `\d+[\.\)]` at the start of a line: when the
line starts with one or more ASCII digits followed by `.` or `)`, returns
the remainder after that index part.  (Backtracking inside `\d+` cannot
produce any other split: every shorter digit run is followed by a digit,
not by `.` or `)`.) -/
def numIndexSplit (s : List Char) : Option (List Char) :=
  match s.dropWhile Char.isDigit with
  | c :: r =>
    if (s.takeWhile Char.isDigit).isEmpty then none
    else if c = '.' || c = ')' then some r else none
  | [] => none

/-- Operational semantics of the title/separator/reason core shared by the
regexes of `parse.py`:
`(?P<title>[^—–\-–]+?)\s*[-—–]\s*(?P<reason>.+)$` applied to `t` (the
title class excludes all dash characters, so the separator can only be the
first dash of `t`; the lazy title plus the greedy `\s*` make the raw title
the whitespace-trimmed segment before that dash — except that when the
whole segment is whitespace the engine still matches with a single
whitespace character as title).  The reason `.+` requires a non-empty
remainder after the dash; its raw value is that remainder with leading
whitespace removed (when the remainder is entirely whitespace the greedy
`\s*` backs off and leaves a single whitespace character, which the call
site strips to the same empty reason, so `ltrimWs` is observationally
faithful there). -/
def dashCore (t : List Char) : Option (List Char × List Char) :=
  match splitAtFirstDash t with
  | none => none
  | some (pre, suf) =>
    if suf.isEmpty then none
    else if pre.any (fun c => !(isWs c)) then some (trimWs pre, ltrimWs suf)
    else
      match pre.getLast? with
      | some w => some ([w], ltrimWs suf)
      | none => none

/-- Operational semantics of the first regex of `parse.py`
(`^\s*(?:\d+[\.\)]\s*)?(?P<title>[^—–\-–\n\r]+?)\s*[-—–]\s*(?P<reason>.+)$`,
applied to lines, which contain no `\n`/`\r`): the engine first tries to
consume the optional numbered index, and falls back to matching without it
when the remainder cannot satisfy the core. -/
def pattern1Match (s0 : List Char) : Option (List Char × List Char) :=
  let s := ltrimWs s0
  match numIndexSplit s with
  | some u =>
    match dashCore u with
    | some res => some res
    | none => dashCore s
  | none => dashCore s

/-- Operational semantics of the second regex
(`^\s*(\d+)[\.\)]\s*(.+)$`): requires the numbered index and a non-empty
remainder; the captured group is the remainder with leading whitespace
removed (a single whitespace character survives when the remainder is
entirely whitespace, by greedy backtracking of `\s*`). -/
def m2Match (s0 : List Char) : Option (List Char) :=
  let s := ltrimWs s0
  match numIndexSplit s with
  | some rest =>
    if rest.isEmpty then none
    else
      match ltrimWs rest with
      | [] => some (rest.reverse.take 1)
      | g => some g
  | none => none

/-- Operational semantics of the third regex
(`^(?P<title>[^—–\-–]+)\s*[-—–]\s*(?P<reason>.+)$`): greedy title, so the
raw title is everything before the first dash (the call site strips it);
both segments must be non-empty. -/
def m3Match (s : List Char) : Option (List Char × List Char) :=
  match splitAtFirstDash s with
  | none => none
  | some (pre, suf) =>
    if pre.isEmpty || suf.isEmpty then none else some (pre, suf)

/-- A parsed recommendation record: the `{"title": ..., "reason": ...}`
dict of `parse.py`. -/
structure Rec where
  title : List Char
  reason : List Char
deriving DecidableEq, Repr

/-- The per-line step of `parse_recommendations` (`parse.py` lines 22-40):
first-match-wins over the three regexes, then the short-bare-line
fallback.  A `pattern1` match with a title of length ≤ 1 after
`strip(" \"' ")` skips the line entirely (the `continue` runs whether or
not the record was appended). -/
def lineToRec (ln : List Char) : Option Rec :=
  match pattern1Match ln with
  | some (tRaw, rRaw) =>
    let title := stripQuoteSpace tRaw
    if title.length > 1 then some ⟨title, trimWs rRaw⟩ else none
  | none =>
    match m2Match ln with
    | some g => some ⟨stripQuoteSpace g, []⟩
    | none =>
      match m3Match ln with
      | some (pre, suf) => some ⟨trimWs pre, trimWs suf⟩
      | none => if ln.length < 60 then some ⟨stripQuoteSpace ln, []⟩ else none

/-- Split into lines at `\n`/`\r`.  Python's `splitlines` treats `\r\n` as
a single break and also splits at some rarer control characters; since
`parse_recommendations` strips every line and drops blank ones, splitting
at each of `\n`/`\r` separately is observationally identical on the
inputs at hand (the extra segments are empty and are filtered out). -/
def splitLinesGo (cur : List Char) : List Char → List (List Char)
  | [] => [cur.reverse]
  | c :: rest =>
    if c = '\n' || c = '\r' then cur.reverse :: splitLinesGo [] rest
    else splitLinesGo (c :: cur) rest

/-- All lines of a text. -/
def splitLines (s : List Char) : List (List Char) :=
  splitLinesGo [] s

/-- The deduplication loop of `parse.py` lines 43-52: first-seen wins on
the lowercased title, and the loop breaks as soon as `expected` unique
records have been collected — the length check runs only *after* an
append, so with `expected ≤ 0` one record is still produced. -/
def dedupLoop (expected : Int) (seen : List (List Char)) (acc : List Rec) :
    List Rec → List Rec
  | [] => acc.reverse
  | r :: rs =>
    let key := lowerStr r.title
    if key ∈ seen then dedupLoop expected seen acc rs
    else
      if (acc.length + 1 : Int) ≥ expected then (r :: acc).reverse
      else dedupLoop expected (key :: seen) (r :: acc) rs

/-- The stripped non-blank lines of the input
(`[ln.strip() for ln in text.splitlines() if ln.strip()]`). -/
def parseLines (text : List Char) : List (List Char) :=
  ((splitLines text).map trimWs).filter (fun ln => !ln.isEmpty)

/-- The records extracted line by line, before deduplication. -/
def lineRecs (text : List Char) : List Rec :=
  (parseLines text).filterMap lineToRec

/-- `parse_recommendations` of `recommender/parse.py`: split into lines,
extract a record per line by the regex cascade, deduplicate by lowercased
title keeping the first occurrence, and stop once `expected` unique
records are collected.  Total — the source never raises. -/
def parse_recommendations (text : List Char) (expected : Int) : List Rec :=
  if text.isEmpty then []
  else dedupLoop expected [] [] (lineRecs text)

/-- Uncapped first-seen deduplication by lowercased title: the reference
against which the source's break-at-`expected` loop is characterised. -/
def dedupAll (seen : List (List Char)) : List Rec → List Rec
  | [] => []
  | r :: rs =>
    let key := lowerStr r.title
    if key ∈ seen then dedupAll seen rs else r :: dedupAll (key :: seen) rs

/-- A run of `k` letters `x`: the parametric reason used to show that no
reason-length cap exists in the parser. -/
def xRun (k : Nat) : List Char :=
  List.replicate k 'x'

/-- The line `Foo — <k times x>`: a well-formed entry whose reason has
length exactly `k`. -/
def fooLine (k : Nat) : List Char :=
  'F' :: 'o' :: 'o' :: ' ' :: '—' :: ' ' :: xRun k

/-- The string ends with an ellipsis marker: the Unicode ellipsis
character or three ASCII dots. -/
def endsWithEllipsis (s : List Char) : Prop :=
  s.getLast? = some '…' ∨ s.reverse.take 3 = ['.', '.', '.']

/-- The spec's reason-cap property, with the configured maximum reason
length as a parameter (the source has no such configuration value): every
parsed reason longer than the cap has been truncated to at most the cap
plus an ellipsis marker (three characters of slack are granted for the
marker itself) and ends with the marker. -/
def reasonCapClaim (M : Nat) : Prop :=
  ∀ (text : List Char) (n : Int) (r : Rec),
    r ∈ parse_recommendations text n → M < r.reason.length →
    r.reason.length ≤ M + 3 ∧ endsWithEllipsis r.reason

/-! ### Model client (`recommender/client.py`) -/

/-- JSON values, as produced by `resp.json()`. -/
inductive Json where
  | jstr (s : String)
  | jnum (q : ℚ)
  | jbool (b : Bool)
  | jnull
  | jarr (xs : List Json)
  | jobj (fields : List (String × Json))

/-- Dictionary lookup (`key in data` / `data[key]`; Python dict keys are
unique, so the first binding is the binding). -/
def jlookup (fields : List (String × Json)) (k : String) : Option Json :=
  (fields.find? (fun p => p.1 == k)).map (fun p => p.2)

/-- The conventional text-bearing keys probed by `call_ollama_sync`, in
source order. -/
def keyOrder : List String :=
  ["text", "response", "generated", "output"]

/-- `client.py` lines 68-70: the first probed key that is present *and*
string-typed wins (a present non-string key is skipped, and an empty
string is returned as-is). -/
def firstKeyString (fields : List (String × Json)) : Option String :=
  keyOrder.findSome? (fun k =>
    match jlookup fields k with
    | some (Json.jstr s) => some s
    | _ => none)

/-- `client.py` lines 71-79: the first choice object's `text` field if it
is a string, else its `message.content` field if that is a string. -/
def choicesString (fields : List (String × Json)) : Option String :=
  match jlookup fields "choices" with
  | some (Json.jarr (first :: _)) =>
    match first with
    | Json.jobj f2 =>
      (match jlookup f2 "text" with
       | some (Json.jstr s) => some s
       | _ =>
         match jlookup f2 "message" with
         | some (Json.jobj mf) =>
           (match jlookup mf "content" with
            | some (Json.jstr s) => some s
            | _ => none)
         | _ => none)
    | _ => none
  | _ => none

/-- `client.py` lines 66-81: extraction from the parsed JSON document —
dict fields, then choices, then a plain JSON string. -/
def extractFromJson : Json → Option String
  | Json.jobj fields => firstKeyString fields <|> choicesString fields
  | Json.jstr s => some s
  | _ => none

/-- All string-typed extraction candidates of a JSON document, in the
client's priority order (dict fields, choice text / message content,
plain string).  Used to state the response-shape claims. -/
def jsonCandidates : Json → List String
  | Json.jobj fields =>
    (keyOrder.filterMap (fun k =>
      match jlookup fields k with
      | some (Json.jstr s) => some s
      | _ => none)) ++ (choicesString fields).toList
  | Json.jstr s => [s]
  | _ => []

/-- The spec's extraction contract as worded in the claim: the first
*non-empty* string among the candidates, the raw body being the last
resort. -/
def claimFirstNonEmpty (d : Json) (raw : String) : Option String :=
  (jsonCandidates d ++ [raw]).find? (fun s => !(s == ""))

/-- The amended extraction contract: the first *string-typed* candidate,
empty or not; the raw body (when non-empty) is the last resort. -/
def amendedFirstString (d : Json) (raw : String) : Option String :=
  (jsonCandidates d ++ (if raw = "" then [] else [raw])).head?

/-- An HTTP response as observed by the client: status code, the result
of `resp.json()` (`none` models the `ValueError` on a non-JSON body), and
the raw body `resp.text`. -/
structure HttpResp where
  status : Nat
  jsonVal : Option Json
  text : String

/-- What one `requests.post` attempt produces: a raised
`requests.RequestException` or a response. -/
inductive AttemptOutcome where
  | netErr (msg : String)
  | gotResp (r : HttpResp)

/-- The Python exceptions `call_ollama_sync` can raise. -/
inductive PyErr where
  | valueError (msg : String)
  | runtimeError (msg : String)
deriving DecidableEq, Repr

deriving instance DecidableEq for Except

/-- The observable behaviour of one call: how many attempts were made,
the backoff sleeps in order, and the returned text or raised error. -/
structure CallResult where
  attempts : Nat
  sleeps : List ℚ
  result : Except PyErr String
deriving DecidableEq, Repr

/-- The message of the `RuntimeError` recorded for a non-200 status
(`f"Ollama returned status {resp.status_code}: {resp.text[:200]}"`). -/
def statusMsg (r : HttpResp) : String :=
  "Ollama returned status " ++ toString r.status ++ ": " ++ r.text.take 200

/-- The final wrapper message
(`f"Failed to get response from Ollama after retries: {last_exc}"`). -/
def wrapMsg (s : String) : String :=
  "Failed to get response from Ollama after retries: " ++ s

/-- `str(last_exc)` with Python's rendering of `None`. -/
def lastStr : Option String → String
  | some s => s
  | none => "None"

/-- The retry loop of `call_ollama_sync` (`client.py` lines 37-90),
embedded with explicit state: `attempt` is the 1-based loop counter of
`range(1, retries + 2)`, `fuel` the number of remaining iterations,
`lastExc` the `last_exc` variable, `sleeps` the backoff sleeps so far
(reversed), and `attempts` how many `requests.post` calls were made.
Outcome of each attempt is supplied by `out`. -/
def callGo (R : Nat) (b : ℚ) (out : Nat → AttemptOutcome) :
    Nat → Nat → Option String → List ℚ → Nat → CallResult
  | _, 0, lastExc, sleeps, attempts =>
    ⟨attempts, sleeps.reverse, .error (.runtimeError (wrapMsg (lastStr lastExc)))⟩
  | attempt, fuel + 1, _, sleeps, attempts =>
    match out attempt with
    | .netErr m =>
      if attempt ≤ R then
        callGo R b out (attempt + 1) fuel (some m) ((b * attempt) :: sleeps)
          (attempts + 1)
      else callGo R b out (attempt + 1) fuel (some m) sleeps (attempts + 1)
    | .gotResp r =>
      if r.status ≠ 200 then
        if 400 ≤ r.status ∧ r.status < 500 then
          ⟨attempts + 1, sleeps.reverse,
            .error (.runtimeError (wrapMsg (statusMsg r)))⟩
        else if attempt ≤ R then
          callGo R b out (attempt + 1) fuel (some (statusMsg r))
            ((b * attempt) :: sleeps) (attempts + 1)
        else
          callGo R b out (attempt + 1) fuel (some (statusMsg r)) sleeps
            (attempts + 1)
      else
        match r.jsonVal with
        | none =>
          if r.text = "" then
            ⟨attempts + 1, sleeps.reverse,
              .error (.valueError "Empty response from Ollama")⟩
          else ⟨attempts + 1, sleeps.reverse, .ok r.text⟩
        | some data =>
          match extractFromJson data with
          | some s => ⟨attempts + 1, sleeps.reverse, .ok s⟩
          | none =>
            if r.text ≠ "" then ⟨attempts + 1, sleeps.reverse, .ok r.text⟩
            else
              callGo R b out (attempt + 1) fuel
                (some "Could not extract text from Ollama response") sleeps
                (attempts + 1)

/-- `call_ollama_sync` with retry count `R` and backoff base interval `b`
(the request payload construction has no bearing on the observable
behaviour modelled here; the per-attempt network outcome is the
parameter `out`). -/
def call_ollama_sync (R : Nat) (b : ℚ) (out : Nat → AttemptOutcome) :
    CallResult :=
  callGo R b out 1 (R + 1) none [] 0

/-- The backoff sleeps `b * s, b * (s + 1), …` for `len` consecutive
attempts starting at attempt number `s` (the loop sleeps
`REQUESTS_BACKOFF_S * attempt` after each retryable failure that still
has retries left). -/
def backoffSleeps (b : ℚ) : Nat → Nat → List ℚ
  | _, 0 => []
  | s, len + 1 => (b * s) :: backoffSleeps b (s + 1) len

/-- An attempt outcome is *retryable* with recorded message `s` when it
is a network error with message `s`, or a response whose status is
neither 200 nor a client error, `s` being its status message. -/
def retryableWith : AttemptOutcome → String → Prop
  | .netErr m, s => s = m
  | .gotResp r, s =>
    r.status ≠ 200 ∧ ¬(400 ≤ r.status ∧ r.status < 500) ∧ s = statusMsg r

/-! ### Input validator (`recommender/schemas.py`) -/

/-- A Python value as seen by the validator: a string, or anything else
(`isinstance(item, str)` is the only inspection performed on non-string
entries). -/
inductive PyVal where
  | str (s : List Char)
  | nonString
deriving DecidableEq

/-- The per-item loop of `validate_and_clean_likes` (`schemas.py` lines
20-27): reject non-strings and blank-after-trim entries, otherwise
collect the trimmed entries. -/
def cleanLoop (idx : Nat) : List PyVal → Except String (List (List Char))
  | [] => .ok []
  | PyVal.nonString :: _ =>
    .error ("likes[" ++ toString idx ++ "] must be a string")
  | PyVal.str s :: rest =>
    let t := trimWs s
    if t.isEmpty then
      .error ("likes[" ++ toString idx ++ "] must not be empty or whitespace")
    else (cleanLoop (idx + 1) rest).map (fun tl => t :: tl)

/-- The case-insensitive first-seen deduplication of `schemas.py` lines
33-40. -/
def dedupCiGo (seen : List (List Char)) : List (List Char) → List (List Char)
  | [] => []
  | t :: rest =>
    let key := lowerStr t
    if key ∈ seen then dedupCiGo seen rest
    else t :: dedupCiGo (key :: seen) rest

/-- `LikesPayload.validate_and_clean_likes` of `recommender/schemas.py`
(the `not isinstance(v, list)` guard is unrepresentable in this typed
embedding — the argument is a list by construction). -/
def validate_and_clean_likes (maxLikes : Nat) (v : List PyVal) :
    Except String (List (List Char)) :=
  if v.isEmpty then .error "likes must be a non-empty list of strings"
  else
    match cleanLoop 0 v with
    | .error e => .error e
    | .ok cleaned =>
      if cleaned.length > maxLikes then
        .error ("likes list too large; maximum is " ++ toString maxLikes)
      else .ok (dedupCiGo [] cleaned)

/-- The trimmed string entries of a payload (meaningful when validation
succeeds, i.e. when every entry is a string). -/
def cleanedStrings (v : List PyVal) : List (List Char) :=
  v.filterMap (fun x =>
    match x with
    | PyVal.str s => some (trimWs s)
    | PyVal.nonString => none)

/-! ### Prompt builder (`recommender/prompt.py`) -/

/-- The `likes_block` of `build_prompt`:
`"\n".join(f"- {s}" for s in likes)`. -/
def likesBlock (likes : List String) : String :=
  String.intercalate "\n" (likes.map (fun s => "- " ++ s))

/-- `build_prompt` of `recommender/prompt.py`: a pure function of the
likes list and the requested count (the source reads no ambient state —
no randomness, no time). -/
def build_prompt (likes : List String) (n : Int) : String :=
  "You are an expert anime TV and streaming show recommender.\n" ++
  "User provided a list of shows they like.\n" ++
  "Produce exactly " ++ toString n ++
  " distinct TV show or limited-series recommendations " ++
  "that are NOT in the user's list. For each recommendation output a single " ++
  "numbered line in the format:\n\n" ++
  "1. Title — One concise sentence (10–30 words) explaining why this is a good match.\n\n" ++
  "Avoid filler, do not list the user's input, prefer diverse genres and eras where appropriate.\n\n" ++
  "User likes:\n" ++
  likesBlock likes ++ "\n\n" ++
  "Output exactly the numbered items and nothing else.\n" ++
  "Recommendations should all be anime."

/-! ### Service Facade (spec §4.5) -/

/-- A typed failure of the model client, as the facade sees it. -/
inductive ClientFailure where
  | networkIssue (msg : String)
  | backendIssue (msg : String)
  | emptyBody

/-- The externally visible failure categories of the facade. -/
inductive FacadeFailure where
  | invalidInput (msg : String)
  | backendFailure (msg : String)
  | networkFailure (msg : String)
  | noRecommendations
deriving DecidableEq

/-- Modelled from the spec: the Service Facade of §4.5 (the `/recommend`
web handler) is not present under `src/` — the source tree holds only the
component modules, the HTML template and the tests — so this composition
is taken from the specification's words: sequence Validator → Prompt
Builder → Model Client → Parser, short-circuit on the first failure, and
translate an empty parse after a successful backend call into the
`NoRecommendations` failure rather than an empty success. -/
def recommend_facade (maxLikes : Nat) (n : Int)
    (backend : String → Except ClientFailure String) (payload : List PyVal) :
    Except FacadeFailure (List Rec) :=
  match validate_and_clean_likes maxLikes payload with
  | .error m => .error (.invalidInput m)
  | .ok likes =>
    match backend (build_prompt (likes.map (fun l => String.mk l)) n) with
    | .error (.networkIssue m) => .error (.networkFailure m)
    | .error (.backendIssue m) => .error (.backendFailure m)
    | .error .emptyBody => .error (.backendFailure "EmptyResponse")
    | .ok text =>
      let recs := parse_recommendations text.toList n
      if recs.isEmpty then .error .noRecommendations else .ok recs

/-- For a positive cap, the source's deduplication loop is exactly the
uncapped deduplication truncated to the cap. -/
theorem dedupLoop_eq_take (e : Int) (he : 1 ≤ e) :
    ∀ (rs : List Rec) (seen : List (List Char)) (acc : List Rec),
      (acc.length : Int) < e →
      dedupLoop e seen acc rs =
        acc.reverse ++ (dedupAll seen rs).take (e.toNat - acc.length) := by
  intro rs
  induction rs with
  | nil =>
    intro seen acc _
    simp [dedupLoop, dedupAll]
  | cons r rs ih =>
    intro seen acc hacc
    by_cases hmem : lowerStr r.title ∈ seen
    · simpa [dedupLoop, dedupAll, hmem] using ih seen acc hacc
    · by_cases hbrk : (acc.length + 1 : Int) ≥ e
      · have he' : e = (acc.length : Int) + 1 := le_antisymm hbrk (by omega)
        have ht : e.toNat - acc.length = 1 := by omega
        simp [dedupLoop, dedupAll, hmem, hbrk, ht, List.take_succ_cons]
      · have hacc' : ((r :: acc).length : Int) < e := by
          simp only [List.length_cons]
          push_cast
          omega
        have ht : e.toNat - acc.length = (e.toNat - (acc.length + 1)) + 1 := by
          omega
        rw [dedupLoop]
        simp only [if_neg hmem, if_neg hbrk]
        rw [ih (lowerStr r.title :: seen) (r :: acc) hacc']
        simp [dedupAll, hmem, ht, List.take_succ_cons]

/-- The uncapped deduplication is a sublist of its input (order is
preserved, entries are only dropped). -/
theorem dedupAll_sublist : ∀ (seen : List (List Char)) (rs : List Rec),
    (dedupAll seen rs).Sublist rs := by
  intro seen rs
  induction rs generalizing seen with
  | nil => simp [dedupAll]
  | cons r rs ih =>
    by_cases hmem : lowerStr r.title ∈ seen
    · simpa [dedupAll, hmem] using List.Sublist.cons r (ih seen)
    · simpa [dedupAll, hmem] using List.Sublist.cons₂ r (ih _)

/-- Keys of records surviving deduplication were not previously seen. -/
theorem dedupAll_key_not_seen :
    ∀ (seen : List (List Char)) (rs : List Rec) (r : Rec),
      r ∈ dedupAll seen rs → lowerStr r.title ∉ seen := by
  intro seen rs
  induction rs generalizing seen with
  | nil => simp [dedupAll]
  | cons r' rs ih =>
    intro r hr
    by_cases hmem : lowerStr r'.title ∈ seen
    · exact ih seen r (by simpa [dedupAll, hmem] using hr)
    · rcases (by simpa [dedupAll, hmem] using hr : r = r' ∨ r ∈ dedupAll _ rs) with
        rfl | hr'
      · exact hmem
      · intro hcontra
        exact ih _ r hr' (List.mem_cons_of_mem _ hcontra)

/-- After deduplication the lowercased titles are pairwise distinct. -/
theorem dedupAll_pairwise : ∀ (seen : List (List Char)) (rs : List Rec),
    (dedupAll seen rs).Pairwise
      (fun a b => lowerStr a.title ≠ lowerStr b.title) := by
  intro seen rs
  induction rs generalizing seen with
  | nil => simp [dedupAll]
  | cons r rs ih =>
    by_cases hmem : lowerStr r.title ∈ seen
    · simpa [dedupAll, hmem] using ih seen
    · rw [dedupAll]
      simp only [hmem, if_false]
      refine List.Pairwise.cons ?_ (ih _)
      intro b hb heq
      exact dedupAll_key_not_seen _ _ _ hb (by simp [← heq])

/-- Every survivor of deduplication is the *first* input record bearing
its (case-insensitive) title key: duplicated titles keep the first
occurrence's reason. -/
theorem dedupAll_find :
    ∀ (seen : List (List Char)) (rs : List Rec) (r : Rec),
      r ∈ dedupAll seen rs →
      rs.find? (fun x => lowerStr x.title == lowerStr r.title) = some r := by
  intro seen rs
  induction rs generalizing seen with
  | nil => simp [dedupAll]
  | cons r' rs ih =>
    intro r hr
    by_cases hmem : lowerStr r'.title ∈ seen
    · have hr' : r ∈ dedupAll seen rs := by simpa [dedupAll, hmem] using hr
      have hne : lowerStr r'.title ≠ lowerStr r.title := by
        intro heq
        exact dedupAll_key_not_seen _ _ _ hr' (heq ▸ hmem)
      rw [List.find?_cons]
      simp only [beq_eq_false_iff_ne.mpr hne]
      exact ih seen r hr'
    · rcases (by simpa [dedupAll, hmem] using hr : r = r' ∨ r ∈ dedupAll _ rs) with
        rfl | hr'
      · rw [List.find?_cons]
        simp
      · have hne : lowerStr r'.title ≠ lowerStr r.title := by
          intro heq
          exact dedupAll_key_not_seen _ _ _ hr' (by simp [heq])
        rw [List.find?_cons]
        simp only [beq_eq_false_iff_ne.mpr hne]
        exact ih _ r hr'

/-- For a positive expected count, the parser output is the uncapped
deduplication truncated to that count. -/
theorem parse_recommendations_eq_take (text : List Char) (n : Int)
    (hn : 1 ≤ n) (htext : ¬text.isEmpty) :
    parse_recommendations text n = (dedupAll [] (lineRecs text)).take n.toNat := by
  rw [parse_recommendations, if_neg htext,
    dedupLoop_eq_take n hn (lineRecs text) [] [] (by simpa using hn)]
  simp

/-- C7 (amended): for every input text and every expected count `n ≥ 1`,
`parse_recommendations` never raises (it is a total function) and returns
an ordered list of at most `n` records whose lowercased titles are
pairwise distinct; each returned record is the *first* extracted record
bearing its case-insensitive title (so duplicated titles keep the first
occurrence's reason), and empty input yields the empty list.  (The
original claim's "every expected count" fails at `n ≤ 0`, where one
record is still returned — see the counterexample.) -/
theorem parse_recommendations_sound (text : List Char) (n : Int) (hn : 1 ≤ n) :
    ((parse_recommendations text n).length : Int) ≤ n ∧
    (parse_recommendations text n).Pairwise
      (fun a b => lowerStr a.title ≠ lowerStr b.title) ∧
    (∀ r ∈ parse_recommendations text n,
      (lineRecs text).find? (fun x => lowerStr x.title == lowerStr r.title) =
        some r) ∧
    parse_recommendations [] n = [] := by
  by_cases htext : text.isEmpty
  · constructor
    · simp [parse_recommendations, htext]
      omega
    · simp [parse_recommendations, htext]
  · rw [parse_recommendations_eq_take text n hn htext]
    refine ⟨?_, ?_, ?_, by simp [parse_recommendations]⟩
    · calc ((((dedupAll [] (lineRecs text)).take n.toNat).length : ℕ) : Int)
          ≤ (n.toNat : Int) := by
            exact_mod_cast List.length_take_le _ _
        _ = n := Int.toNat_of_nonneg (by omega)
    · exact (dedupAll_pairwise [] _).sublist (List.take_sublist _ _)
    · intro r hr
      exact dedupAll_find [] _ r (List.mem_of_mem_take hr)

/-- C7 counterexample: with expected count `0` the parser still returns
one record (the cap is checked only after an append), so the output is
not "at most `n` records" for every `n`. -/
theorem parse_recommendations_zero_cap_violated :
    parse_recommendations ("Foo — bar".toList) 0 =
      [⟨"Foo".toList, "bar".toList⟩] ∧
    ¬(((parse_recommendations ("Foo — bar".toList) 0).length : Int) ≤ 0) := by
  decide

/-- C7 witness: the amended theorem applied at a concrete text and
expected count. -/
theorem parse_recommendations_sound_witness :
    (1 : Int) ≤ 2 ∧
    ((((parse_recommendations ("1. Alpha — x\n2. Beta — y\n3. Alpha — z".toList)
          2).length : Int) ≤ 2) ∧
      (parse_recommendations ("1. Alpha — x\n2. Beta — y\n3. Alpha — z".toList)
          2).Pairwise (fun a b => lowerStr a.title ≠ lowerStr b.title) ∧
      (∀ r ∈ parse_recommendations
          ("1. Alpha — x\n2. Beta — y\n3. Alpha — z".toList) 2,
        (lineRecs ("1. Alpha — x\n2. Beta — y\n3. Alpha — z".toList)).find?
            (fun x => lowerStr x.title == lowerStr r.title) = some r) ∧
      parse_recommendations [] 2 = []) :=
  ⟨by decide,
    parse_recommendations_sound
      ("1. Alpha — x\n2. Beta — y\n3. Alpha — z".toList) 2 (by decide)⟩

/-- C8: the spec's worked example — parsing the three-line text with a
duplicated title yields exactly the two records `Foo`/`Bar`, with reasons
equal to the text after the separator. -/
theorem parse_spec_example :
    parse_recommendations
        ("1. Foo — Great pick.\n2. Bar — Also good.\n3. Foo — duplicate.".toList)
        3 =
      [⟨"Foo".toList, "Great pick.".toList⟩,
        ⟨"Bar".toList, "Also good.".toList⟩] := by
  decide

theorem splitLinesGo_no_break : ∀ (l cur : List Char),
    (∀ c ∈ l, (c = '\n' || c = '\r') = false) →
    splitLinesGo cur l = [cur.reverse ++ l] := by
  intro l
  induction l with
  | nil => intro cur _; simp [splitLinesGo]
  | cons c rest ih =>
    intro cur h
    rw [splitLinesGo]
    rw [if_neg (by simpa using h c (List.mem_cons_self c rest))]
    rw [ih (c :: cur) (fun d hd => h d (List.mem_cons_of_mem c hd))]
    simp

theorem fooLine_no_break (k : Nat) :
    ∀ c ∈ fooLine k, (c = '\n' || c = '\r') = false := by
  intro c hc
  simp only [fooLine, xRun, List.mem_cons, List.mem_replicate] at hc
  rcases hc with rfl | rfl | rfl | rfl | rfl | rfl | ⟨-, rfl⟩ <;> decide

theorem rtrimWs_append_xRun (s : List Char) (j : Nat) :
    rtrimWs (s ++ xRun (j + 1)) = s ++ xRun (j + 1) := by
  have hrev : (s ++ xRun (j + 1)).reverse = 'x' :: (xRun j ++ s.reverse) := by
    rw [List.reverse_append,
      show (xRun (j + 1)).reverse = xRun (j + 1) by
        simp [xRun, List.reverse_replicate]]
    simp only [xRun, List.replicate_succ, List.cons_append]
  rw [rtrimWs, hrev, List.dropWhile_cons, if_neg (by decide)]
  rw [← hrev, List.reverse_reverse]

theorem ltrimWs_xRun_succ (j : Nat) : ltrimWs (xRun (j + 1)) = xRun (j + 1) := by
  rw [ltrimWs, xRun, List.replicate_succ, List.dropWhile_cons, if_neg (by decide)]

theorem trimWs_fooLine (j : Nat) :
    trimWs (fooLine (j + 1)) = fooLine (j + 1) := by
  have h1 : ltrimWs (fooLine (j + 1)) = fooLine (j + 1) := by
    rw [ltrimWs, fooLine, List.dropWhile_cons, if_neg (by decide)]
  rw [trimWs, h1]
  have : fooLine (j + 1) = ('F' :: 'o' :: 'o' :: ' ' :: '—' :: ' ' :: []) ++ xRun (j + 1) := by
    simp [fooLine]
  rw [this, rtrimWs_append_xRun]

theorem pattern1Match_fooLine (j : Nat) :
    pattern1Match (fooLine (j + 1)) = some (['F', 'o', 'o'], xRun (j + 1)) := by
  have hltrim : ltrimWs (fooLine (j + 1)) = fooLine (j + 1) := by
    rw [ltrimWs, fooLine, List.dropWhile_cons, if_neg (by decide)]
  have hsplit : splitAtFirstDash (fooLine (j + 1)) =
      some (['F', 'o', 'o', ' '], ' ' :: xRun (j + 1)) := by
    rw [splitAtFirstDash]
    simp [fooLine, List.dropWhile_cons, List.takeWhile_cons, isDashCh]
  have hnum : numIndexSplit (fooLine (j + 1)) = none := by
    rw [numIndexSplit]
    simp [fooLine, List.dropWhile_cons, List.takeWhile_cons]
  rw [pattern1Match]
  simp only [hltrim, hnum]
  rw [dashCore, hsplit]
  simp only [List.isEmpty_cons, Bool.false_eq_true, if_false]
  rw [if_pos (by decide)]
  have hl : ltrimWs (' ' :: xRun (j + 1)) = xRun (j + 1) := by
    rw [ltrimWs, List.dropWhile_cons, if_pos (by decide), ← ltrimWs, ltrimWs_xRun_succ]
  rw [hl]
  congr 1


theorem trimWs_xRun_succ (j : Nat) : trimWs (xRun (j + 1)) = xRun (j + 1) := by
  rw [trimWs, ltrimWs_xRun_succ]
  have := rtrimWs_append_xRun [] j
  simpa using this

theorem lineToRec_fooLine (j : Nat) :
    lineToRec (fooLine (j + 1)) = some ⟨['F', 'o', 'o'], xRun (j + 1)⟩ := by
  rw [lineToRec, pattern1Match_fooLine]
  simp only [stripQuoteSpace]
  rw [trimWs_xRun_succ]
  norm_num
  exact ⟨by decide, by decide⟩

theorem lineRecs_fooLine (j : Nat) :
    lineRecs (fooLine (j + 1)) = [⟨['F', 'o', 'o'], xRun (j + 1)⟩] := by
  have hsplit : splitLines (fooLine (j + 1)) = [fooLine (j + 1)] := by
    rw [splitLines, splitLinesGo_no_break _ _ (fooLine_no_break (j + 1))]
    simp
  rw [lineRecs, parseLines, hsplit]
  simp only [List.map_cons, List.map_nil, trimWs_fooLine]
  rw [List.filter_cons]
  simp only [List.filter_nil]
  rw [if_pos (by simp [fooLine])]
  simp only [List.filterMap_cons, lineToRec_fooLine, List.filterMap_nil]

theorem parse_fooLine (j : Nat) :
    parse_recommendations (fooLine (j + 1)) 3 =
      [⟨['F', 'o', 'o'], xRun (j + 1)⟩] := by
  rw [parse_recommendations, if_neg (by simp [fooLine]), lineRecs_fooLine]
  rw [dedupLoop]
  simp only [List.not_mem_nil, if_neg]
  norm_num
  rw [dedupLoop]
  simp


/-- C1 counterexample: no configured maximum reason length exists — for
every candidate cap `M` the parser returns, at a concrete input (the line
`Foo — x…x` with `M + 4` x's), a reason longer than `M` that is neither
truncated nor ellipsis-terminated, so the claimed truncation property is
false as stated. -/
theorem reason_cap_refuted : ¬ ∃ M, reasonCapClaim M := by
  rintro ⟨M, h⟩
  have hmem : (⟨['F', 'o', 'o'], xRun (M + 4)⟩ : Rec) ∈
      parse_recommendations (fooLine (M + 4)) 3 := by
    rw [show M + 4 = (M + 3) + 1 from rfl, parse_fooLine (M + 3)]
    exact List.mem_singleton.mpr rfl
  have hlen : M < (xRun (M + 4)).length := by
    simp [xRun]
  have hcap := (h _ 3 _ hmem hlen).1
  simp [xRun] at hcap

/-- C1 (amended): `parse_recommendations` never truncates reasons — the
reason is returned exactly as extracted (whitespace-trimmed) whatever its
length, no ellipsis marker is appended, and the title is unchanged: for
every `k ≥ 1`, parsing `Foo — ` followed by `k` x's yields exactly the
record with title `Foo` and a reason of exactly `k` characters not ending
in an ellipsis marker. -/
theorem reason_never_truncated (k : Nat) (hk : 1 ≤ k) :
    parse_recommendations (fooLine k) 3 = [⟨['F', 'o', 'o'], xRun k⟩] ∧
    (xRun k).length = k ∧ ¬endsWithEllipsis (xRun k) := by
  obtain ⟨j, rfl⟩ : ∃ j, k = j + 1 := ⟨k - 1, by omega⟩
  refine ⟨parse_fooLine j, by simp [xRun], ?_⟩
  rintro (h | h)
  · rw [show xRun (j + 1) = List.replicate j 'x' ++ ['x'] by
      simp [xRun, List.replicate_succ'], List.getLast?_concat] at h
    simp at h
  · rw [show (xRun (j + 1)).reverse = 'x' :: List.replicate j 'x' by
      rw [xRun, List.reverse_replicate, List.replicate_succ],
      List.take_succ_cons] at h
    simp at h

/-- C1 witness: the amended theorem applied at `k = 5`. -/
theorem reason_never_truncated_witness :
    1 ≤ 5 ∧
    (parse_recommendations (fooLine 5) 3 = [⟨['F', 'o', 'o'], xRun 5⟩] ∧
      (xRun 5).length = 5 ∧ ¬endsWithEllipsis (xRun 5)) :=
  ⟨by decide, reason_never_truncated 5 (by decide)⟩

theorem callGo_zero (R : Nat) (b : ℚ) (out : Nat → AttemptOutcome)
    (attempt : Nat) (le : Option String) (sl : List ℚ) (atts : Nat) :
    callGo R b out attempt 0 le sl atts =
      ⟨atts, sl.reverse, .error (.runtimeError (wrapMsg (lastStr le)))⟩ := rfl

theorem callGo_netErr {out : Nat → AttemptOutcome} {attempt : Nat}
    {msg : String} (R : Nat) (b : ℚ) (fuel : Nat) (le : Option String)
    (sl : List ℚ) (atts : Nat) (hout : out attempt = .netErr msg) :
    callGo R b out attempt (fuel + 1) le sl atts =
      if attempt ≤ R then
        callGo R b out (attempt + 1) fuel (some msg) ((b * attempt) :: sl)
          (atts + 1)
      else callGo R b out (attempt + 1) fuel (some msg) sl (atts + 1) := by
  rw [callGo, hout]

theorem callGo_resp {out : Nat → AttemptOutcome} {attempt : Nat}
    {r : HttpResp} (R : Nat) (b : ℚ) (fuel : Nat) (le : Option String)
    (sl : List ℚ) (atts : Nat) (hout : out attempt = .gotResp r) :
    callGo R b out attempt (fuel + 1) le sl atts =
      (if r.status ≠ 200 then
        if 400 ≤ r.status ∧ r.status < 500 then
          ⟨atts + 1, sl.reverse, .error (.runtimeError (wrapMsg (statusMsg r)))⟩
        else if attempt ≤ R then
          callGo R b out (attempt + 1) fuel (some (statusMsg r))
            ((b * attempt) :: sl) (atts + 1)
        else
          callGo R b out (attempt + 1) fuel (some (statusMsg r)) sl (atts + 1)
      else
        match r.jsonVal with
        | none =>
          if r.text = "" then
            ⟨atts + 1, sl.reverse, .error (.valueError "Empty response from Ollama")⟩
          else ⟨atts + 1, sl.reverse, .ok r.text⟩
        | some data =>
          match extractFromJson data with
          | some s => ⟨atts + 1, sl.reverse, .ok s⟩
          | none =>
            if r.text ≠ "" then ⟨atts + 1, sl.reverse, .ok r.text⟩
            else
              callGo R b out (attempt + 1) fuel
                (some "Could not extract text from Ollama response") sl
                (atts + 1)) := by
  rw [callGo, hout]

theorem callGo_retry (R : Nat) (b : ℚ) (out : Nat → AttemptOutcome)
    (m : Nat → String) :
    ∀ (fuel attempt : Nat) (le : Option String) (sl : List ℚ) (atts : Nat),
      attempt + fuel = R + 2 → 1 ≤ fuel →
      (∀ k, attempt ≤ k → k ≤ R + 1 → retryableWith (out k) (m k)) →
      callGo R b out attempt fuel le sl atts =
        ⟨atts + fuel, sl.reverse ++ backoffSleeps b attempt (fuel - 1),
          .error (.runtimeError (wrapMsg (m (R + 1))))⟩ := by
  intro fuel
  induction fuel with
  | zero => omega
  | succ f ih =>
    intro attempt le sl atts hsum _ hall
    have hk := hall attempt (le_refl _) (by omega)
    rcases f with - | f'
    · -- last attempt: attempt = R + 1
      have ha : attempt = R + 1 := by omega
      subst ha
      rcases hout : out (R + 1) with msg | r
      · rw [hout] at hk
        simp only [retryableWith] at hk
        rw [callGo_netErr R b 0 le sl atts hout, if_neg (by omega), callGo_zero]
        simp [backoffSleeps, lastStr, hk]
      · rw [hout] at hk
        obtain ⟨hne, hnotc, hs⟩ := hk
        rw [callGo_resp R b 0 le sl atts hout, if_pos hne, if_neg hnotc,
          if_neg (by omega), callGo_zero]
        simp [backoffSleeps, lastStr, ← hs]
    · -- at least one more attempt follows: attempt ≤ R
      have hle : attempt ≤ R := by omega
      have hsum2 : (attempt + 1) + (f' + 1) = R + 2 := by omega
      have hall2 : ∀ k, attempt + 1 ≤ k → k ≤ R + 1 →
          retryableWith (out k) (m k) := by
        intro k hk1 hk2
        exact hall k (by omega) hk2
      rcases hout : out attempt with msg | r
      · rw [hout] at hk
        simp only [retryableWith] at hk
        rw [callGo_netErr R b (f' + 1) le sl atts hout, if_pos hle,
          ih (attempt + 1) (some msg) ((b * attempt) :: sl) (atts + 1) hsum2
            (by omega) hall2]
        simp only [CallResult.mk.injEq, Nat.add_sub_cancel,
          List.reverse_cons, List.append_assoc, List.singleton_append]
        refine ⟨by omega, ?_, trivial⟩
        rw [backoffSleeps]
      · rw [hout] at hk
        obtain ⟨hne, hnotc, hs⟩ := hk
        rw [callGo_resp R b (f' + 1) le sl atts hout, if_pos hne,
          if_neg hnotc, if_pos hle,
          ih (attempt + 1) (some (statusMsg r)) ((b * attempt) :: sl)
            (atts + 1) hsum2 (by omega) hall2]
        simp only [CallResult.mk.injEq, Nat.add_sub_cancel,
          List.reverse_cons, List.append_assoc, List.singleton_append]
        refine ⟨by omega, ?_, trivial⟩
        rw [backoffSleeps]


/-- C4: with retry count `R`, `call_ollama_sync` makes exactly `R + 1`
attempts when every attempt fails with a network error, sleeping
`attempt * base_interval` between consecutive attempts and finally raising
a `RuntimeError` wrapping the last failure; HTTP statuses in `[500, 599]`
receive the same retry treatment; an HTTP status in `[400, 499]` on the
first attempt fails after exactly one attempt with no sleep. -/
theorem client_retry_policy (R : Nat) (b : ℚ) (out : Nat → AttemptOutcome) :
    (∀ (m : Nat → String),
      (∀ k, 1 ≤ k → k ≤ R + 1 → out k = .netErr (m k)) →
      call_ollama_sync R b out =
        ⟨R + 1, backoffSleeps b 1 R,
          .error (.runtimeError (wrapMsg (m (R + 1))))⟩) ∧
    (∀ (r : Nat → HttpResp),
      (∀ k, 1 ≤ k → k ≤ R + 1 → out k = .gotResp (r k)) →
      (∀ k, 1 ≤ k → k ≤ R + 1 → 500 ≤ (r k).status ∧ (r k).status ≤ 599) →
      call_ollama_sync R b out =
        ⟨R + 1, backoffSleeps b 1 R,
          .error (.runtimeError (wrapMsg (statusMsg (r (R + 1)))))⟩) ∧
    (∀ (r : HttpResp), out 1 = .gotResp r → 400 ≤ r.status →
      r.status ≤ 499 →
      call_ollama_sync R b out =
        ⟨1, [], .error (.runtimeError (wrapMsg (statusMsg r)))⟩) := by
  refine ⟨?_, ?_, ?_⟩
  · intro m hall
    rw [call_ollama_sync,
      callGo_retry R b out m (R + 1) 1 none [] 0 (by omega) (by omega)
        (fun k hk1 hk2 => by rw [hall k hk1 hk2]; rfl)]
    simp
  · intro r hall hst
    rw [call_ollama_sync,
      callGo_retry R b out (fun k => statusMsg (r k)) (R + 1) 1 none [] 0
        (by omega) (by omega)
        (fun k hk1 hk2 => by
          rw [hall k hk1 hk2]
          refine ⟨by have := hst k hk1 hk2; omega,
            by have := hst k hk1 hk2; omega, rfl⟩)]
    simp
  · intro r hout h4 h5
    rw [call_ollama_sync, callGo_resp R b R none [] 0 hout,
      if_pos (by omega), if_pos (by omega)]
    simp

set_option maxRecDepth 8000 in
/-- C4 witness: the three retry-policy conclusions at retry count 2 and
backoff base 1/2, with all values evaluated. -/
theorem client_retry_policy_witness :
    (call_ollama_sync 2 (1/2) (fun _ => .netErr "boom") =
      ⟨3, [1/2, 1],
        .error (.runtimeError
          "Failed to get response from Ollama after retries: boom")⟩) ∧
    (call_ollama_sync 2 (1/2) (fun _ => .gotResp ⟨503, none, "bad"⟩) =
      ⟨3, [1/2, 1],
        .error (.runtimeError
          "Failed to get response from Ollama after retries: Ollama returned status 503: bad")⟩) ∧
    (call_ollama_sync 2 (1/2) (fun _ => .gotResp ⟨404, none, "nf"⟩) =
      ⟨1, [],
        .error (.runtimeError
          "Failed to get response from Ollama after retries: Ollama returned status 404: nf")⟩) := by
  refine ⟨?_, ?_, ?_⟩
  · have h := (client_retry_policy 2 (1/2) (fun _ => .netErr "boom")).1
      (fun _ => "boom") (fun k hk1 hk2 => rfl)
    rw [h]
    norm_num [backoffSleeps, wrapMsg]
    decide
  · have h := (client_retry_policy 2 (1/2)
      (fun _ => .gotResp ⟨503, none, "bad"⟩)).2.1
      (fun _ => ⟨503, none, "bad"⟩) (fun k hk1 hk2 => rfl)
      (fun k hk1 hk2 => by refine ⟨?_, ?_⟩ <;> norm_num)
    rw [h]
    norm_num [backoffSleeps, wrapMsg, statusMsg]
    decide
  · have h := (client_retry_policy 2 (1/2)
      (fun _ => .gotResp ⟨404, none, "nf"⟩)).2.2
      ⟨404, none, "nf"⟩ rfl (by norm_num) (by norm_num)
    rw [h]
    norm_num [wrapMsg, statusMsg]
    decide


/-- C10: an HTTP 200 response whose body is not valid JSON and is empty
makes `call_ollama_sync` raise `ValueError ("Empty response from Ollama")`
immediately on that attempt — one attempt, no backoff sleep, and the error
is not wrapped in the retries-exhausted `RuntimeError`. -/
theorem empty_non_json_raises (R : Nat) (b : ℚ) (out : Nat → AttemptOutcome)
    (hout : out 1 = .gotResp ⟨200, none, ""⟩) :
    call_ollama_sync R b out =
      ⟨1, [], .error (.valueError "Empty response from Ollama")⟩ := by
  rw [call_ollama_sync, callGo_resp R b R none [] 0 hout]
  simp

/-- C10 witness: the theorem applied with retries remaining (R = 2). -/
theorem empty_non_json_raises_witness :
    call_ollama_sync 2 (1/2) (fun _ => .gotResp ⟨200, none, ""⟩) =
      ⟨1, [], .error (.valueError "Empty response from Ollama")⟩ :=
  empty_non_json_raises 2 (1/2) _ rfl

theorem callGo_non200_err (R : Nat) (b : ℚ) (out : Nat → AttemptOutcome)
    (r : Nat → HttpResp)
    (hresp : ∀ k, 1 ≤ k → k ≤ R + 1 → out k = .gotResp (r k))
    (hne : ∀ k, 1 ≤ k → k ≤ R + 1 → (r k).status ≠ 200) :
    ∀ (fuel attempt : Nat) (le : Option String) (sl : List ℚ) (atts : Nat),
      attempt + fuel = R + 2 → 1 ≤ attempt →
      ∃ msg, (callGo R b out attempt fuel le sl atts).result =
        .error (.runtimeError msg) := by
  intro fuel
  induction fuel with
  | zero =>
    intro attempt le sl atts _ _
    exact ⟨wrapMsg (lastStr le), rfl⟩
  | succ f ih =>
    intro attempt le sl atts hsum hatt
    have hk1 : attempt ≤ R + 1 := by omega
    rw [callGo_resp R b f le sl atts (hresp attempt hatt hk1),
      if_pos (hne attempt hatt hk1)]
    by_cases h4 : 400 ≤ (r attempt).status ∧ (r attempt).status < 500
    · rw [if_pos h4]
      exact ⟨wrapMsg (statusMsg (r attempt)), rfl⟩
    · rw [if_neg h4]
      by_cases hle : attempt ≤ R
      · rw [if_pos hle]
        exact ih (attempt + 1) _ _ _ (by omega) (by omega)
      · rw [if_neg hle]
        exact ih (attempt + 1) _ _ _ (by omega) (by omega)

/-- C5 (amended): the client treats exactly the statuses other than 200 as
`BackendError`: a 200 response whose JSON body yields extractable text
succeeds on the first attempt with that text, and any run in which every
response has a status other than 200 (including 201–299) fails with a
`RuntimeError`.  (The original claim's "[200, 299] succeeds" fails at 201
— see the counterexample.) -/
theorem only_status_200_succeeds (R : Nat) (b : ℚ)
    (out : Nat → AttemptOutcome) :
    (∀ (r : HttpResp) (d : Json) (s : String),
      out 1 = .gotResp r → r.status = 200 → r.jsonVal = some d →
      extractFromJson d = some s →
      call_ollama_sync R b out = ⟨1, [], .ok s⟩) ∧
    (∀ (r : Nat → HttpResp),
      (∀ k, 1 ≤ k → k ≤ R + 1 → out k = .gotResp (r k)) →
      (∀ k, 1 ≤ k → k ≤ R + 1 → (r k).status ≠ 200) →
      ∃ msg, (call_ollama_sync R b out).result =
        .error (.runtimeError msg)) := by
  constructor
  · intro r d s hout hst hjson hex
    rw [call_ollama_sync, callGo_resp R b R none [] 0 hout]
    rw [if_neg (by omega)]
    rw [hjson]
    simp [hex]
  · intro r hresp hne
    exact callGo_non200_err R b out r hresp hne (R + 1) 1 none [] 0
      (by omega) (by omega)

set_option maxRecDepth 8000 in
/-- C5 counterexample: a response with status 201 and extractable text
(`"hello"`) makes the call fail rather than succeed, refuting the claim
that every status in `[200, 299]` with extractable text succeeds. -/
theorem status_201_with_text_fails :
    extractFromJson (Json.jstr "hello") = some "hello" ∧
    (call_ollama_sync 0 1
      (fun _ => .gotResp ⟨201, some (Json.jstr "hello"), "hello"⟩)).result =
      .error (.runtimeError
        "Failed to get response from Ollama after retries: Ollama returned status 201: hello") := by
  constructor
  · rfl
  · decide

set_option maxRecDepth 8000 in
/-- C5 witness: the amended theorem applied at a 200-with-text response
and at an all-500 run. -/
theorem only_status_200_succeeds_witness :
    (call_ollama_sync 1 (1/2)
      (fun _ => .gotResp ⟨200, some (Json.jstr "hi"), "{}"⟩) =
      ⟨1, [], .ok "hi"⟩) ∧
    (∃ msg, (call_ollama_sync 1 (1/2)
      (fun _ => .gotResp ⟨500, none, "e"⟩)).result =
      .error (.runtimeError msg)) :=
  ⟨(only_status_200_succeeds 1 (1/2) _).1 ⟨200, some (Json.jstr "hi"), "{}"⟩
      (Json.jstr "hi") "hi" rfl rfl rfl rfl,
    (only_status_200_succeeds 1 (1/2) _).2 (fun _ => ⟨500, none, "e"⟩)
      (fun k hk1 hk2 => rfl) (fun k hk1 hk2 => by norm_num)⟩


theorem findSome?_eq_head_filterMap {α β : Type} (f : α → Option β) :
    ∀ (l : List α), l.findSome? f = (l.filterMap f).head? := by
  intro l
  induction l with
  | nil => simp
  | cons a l ih =>
    rw [List.findSome?_cons, List.filterMap_cons]
    cases h : f a with
    | none =>
      simp only [h]
      exact ih
    | some b => simp

theorem extractFromJson_eq_head (d : Json) :
    extractFromJson d = (jsonCandidates d).head? := by
  cases d with
  | jobj fields =>
    rw [extractFromJson, jsonCandidates, firstKeyString,
      findSome?_eq_head_filterMap, List.head?_append]
    cases h : choicesString fields <;>
      cases hf : List.findSome?
        (fun k =>
          match jlookup fields k with
          | some (Json.jstr s) => some s
          | _ => none) keyOrder <;>
      simp [h, hf]
  | jstr s => rfl
  | jnum q => rfl
  | jbool b => rfl
  | jnull => rfl
  | jarr xs => rfl

theorem callGo_unextractable (R : Nat) (b : ℚ) (d : Json)
    (hd : extractFromJson d = none) :
    ∀ (fuel attempt : Nat) (le : Option String) (sl : List ℚ) (atts : Nat),
      1 ≤ fuel →
      callGo R b (fun _ => .gotResp ⟨200, some d, ""⟩) attempt fuel le sl
          atts =
        ⟨atts + fuel, sl.reverse,
          .error (.runtimeError
            (wrapMsg "Could not extract text from Ollama response"))⟩ := by
  intro fuel
  induction fuel with
  | zero => omega
  | succ f ih =>
    intro attempt le sl atts _
    rw [callGo_resp R b f le sl atts rfl]
    simp only [hd, ne_eq, not_true_eq_false, if_false, ite_false, if_neg]
    rcases f with - | f'
    · rw [callGo_zero]
      simp [lastStr]
    · rw [ih (attempt + 1) _ sl (atts + 1) (by omega)]
      simp only [CallResult.mk.injEq]
      refine ⟨by omega, trivial, trivial⟩

/-- C3 (amended): on an HTTP 200 response the client attempts extraction
in the claimed priority order (conventional object fields, then the first
choice's text, then its nested message content, then a plain JSON string,
then the raw body) but returns the first *string-typed* value found, even
when that string is empty; when no shape yields a string and the raw body
is empty, the attempt is retried and the call ends in the
retries-exhausted `RuntimeError` recording "Could not extract text from
Ollama response" (not a distinct `EmptyResponse` failure). -/
theorem extraction_first_string_wins (d : Json) (raw : String) (R : Nat)
    (b : ℚ) :
    call_ollama_sync R b (fun _ => .gotResp ⟨200, some d, raw⟩) =
      match amendedFirstString d raw with
      | some s => ⟨1, [], .ok s⟩
      | none =>
        ⟨R + 1, [],
          .error (.runtimeError
            (wrapMsg "Could not extract text from Ollama response"))⟩ := by
  rw [amendedFirstString, List.head?_append, ← extractFromJson_eq_head]
  cases hext : extractFromJson d with
  | some s =>
    rw [call_ollama_sync, callGo_resp R b R none [] 0 rfl]
    simp [hext, Option.orElse]
  | none =>
    by_cases hraw : raw = ""
    · subst hraw
      rw [call_ollama_sync, callGo_unextractable R b d hext (R + 1) 1 none []
        0 (by omega)]
      simp [Option.orElse]
    · rw [call_ollama_sync, callGo_resp R b R none [] 0 rfl]
      simp [hext, hraw, Option.orElse]

set_option maxRecDepth 8000 in
/-- C3 counterexample: for the body `{"text": "", "response": "ok"}` the
claimed contract returns the first non-empty string `"ok"`, but the call
returns the empty string found in the higher-priority `text` field —
extraction does not skip empty strings. -/
theorem empty_string_field_shadows_nonempty :
    claimFirstNonEmpty
        (Json.jobj [("text", Json.jstr ""), ("response", Json.jstr "ok")])
        "{}" = some "ok" ∧
    (call_ollama_sync 0 1
      (fun _ => .gotResp
        ⟨200,
          some (Json.jobj [("text", Json.jstr ""), ("response", Json.jstr "ok")]),
          "{}"⟩)).result = .ok "" ∧
    ("" : String) ≠ "ok" := by
  refine ⟨by decide, by decide, by decide⟩


theorem dedupCiGo_key_not_seen :
    ∀ (seen : List (List Char)) (ts : List (List Char)) (t : List Char),
      t ∈ dedupCiGo seen ts → lowerStr t ∉ seen := by
  intro seen ts
  induction ts generalizing seen with
  | nil => simp [dedupCiGo]
  | cons t' ts ih =>
    intro t ht
    by_cases hmem : lowerStr t' ∈ seen
    · exact ih seen t (by simpa [dedupCiGo, hmem] using ht)
    · rcases (by simpa [dedupCiGo, hmem] using ht :
          t = t' ∨ t ∈ dedupCiGo _ ts) with rfl | ht'
      · exact hmem
      · intro hcontra
        exact ih _ t ht' (List.mem_cons_of_mem _ hcontra)

theorem dedupCiGo_pairwise :
    ∀ (seen : List (List Char)) (ts : List (List Char)),
      (dedupCiGo seen ts).Pairwise (fun a b => lowerStr a ≠ lowerStr b) := by
  intro seen ts
  induction ts generalizing seen with
  | nil => simp [dedupCiGo]
  | cons t ts ih =>
    by_cases hmem : lowerStr t ∈ seen
    · simpa [dedupCiGo, hmem] using ih seen
    · rw [dedupCiGo]
      simp only [hmem, if_false]
      refine List.Pairwise.cons ?_ (ih _)
      intro b hb heq
      exact dedupCiGo_key_not_seen _ _ _ hb (by simp [← heq])

theorem dedupCiGo_sublist :
    ∀ (seen : List (List Char)) (ts : List (List Char)),
      (dedupCiGo seen ts).Sublist ts := by
  intro seen ts
  induction ts generalizing seen with
  | nil => simp [dedupCiGo]
  | cons t ts ih =>
    by_cases hmem : lowerStr t ∈ seen
    · simpa [dedupCiGo, hmem] using List.Sublist.cons t (ih seen)
    · simpa [dedupCiGo, hmem] using List.Sublist.cons₂ t (ih _)

theorem dedupCiGo_find :
    ∀ (seen : List (List Char)) (ts : List (List Char)) (t : List Char),
      t ∈ dedupCiGo seen ts →
      ts.find? (fun x => lowerStr x == lowerStr t) = some t := by
  intro seen ts
  induction ts generalizing seen with
  | nil => simp [dedupCiGo]
  | cons t' ts ih =>
    intro t ht
    by_cases hmem : lowerStr t' ∈ seen
    · have ht' : t ∈ dedupCiGo seen ts := by simpa [dedupCiGo, hmem] using ht
      have hne : lowerStr t' ≠ lowerStr t := by
        intro heq
        exact dedupCiGo_key_not_seen _ _ _ ht' (heq ▸ hmem)
      rw [List.find?_cons]
      simp only [beq_eq_false_iff_ne.mpr hne]
      exact ih seen t ht'
    · rcases (by simpa [dedupCiGo, hmem] using ht :
          t = t' ∨ t ∈ dedupCiGo _ ts) with rfl | ht'
      · rw [List.find?_cons]
        simp
      · have hne : lowerStr t' ≠ lowerStr t := by
          intro heq
          exact dedupCiGo_key_not_seen _ _ _ ht' (by simp [heq])
        rw [List.find?_cons]
        simp only [beq_eq_false_iff_ne.mpr hne]
        exact ih _ t ht'

theorem cleanLoop_ok :
    ∀ (v : List PyVal) (idx : Nat) (out : List (List Char)),
      cleanLoop idx v = .ok out → out = cleanedStrings v := by
  intro v
  induction v with
  | nil =>
    intro idx out h
    simp [cleanLoop] at h
    simp [cleanedStrings, ← h]
  | cons x rest ih =>
    intro idx out h
    cases x with
    | nonString => simp [cleanLoop] at h
    | str s =>
      rw [cleanLoop] at h
      by_cases ht : (trimWs s).isEmpty
      · rw [if_pos ht] at h
        exact absurd h (by simp)
      · rw [if_neg ht] at h
        cases hrest : cleanLoop (idx + 1) rest with
        | error e => rw [hrest] at h; simp [Except.map] at h
        | ok tl =>
          rw [hrest] at h
          simp only [Except.map, Except.ok.injEq] at h
          rw [← h, ih (idx + 1) tl hrest]
          simp [cleanedStrings, List.filterMap_cons]

theorem cleanLoop_error_iff :
    ∀ (v : List PyVal) (idx : Nat),
      (∃ e, cleanLoop idx v = .error e) ↔
        (PyVal.nonString ∈ v ∨ ∃ s, PyVal.str s ∈ v ∧ trimWs s = []) := by
  intro v
  induction v with
  | nil => intro idx; simp [cleanLoop]
  | cons x rest ih =>
    intro idx
    cases x with
    | nonString => simp [cleanLoop]
    | str s =>
      rw [cleanLoop]
      by_cases ht : (trimWs s).isEmpty
      · rw [if_pos ht]
        simp only [List.isEmpty_iff] at ht
        simp [ht]
      · rw [if_neg ht]
        simp only [List.isEmpty_iff] at ht
        constructor
        · rintro ⟨e, he⟩
          cases hrest : cleanLoop (idx + 1) rest with
          | error e' =>
            rcases (ih (idx + 1)).mp ⟨e', hrest⟩ with h | ⟨s', hs1, hs2⟩
            · exact Or.inl (List.mem_cons_of_mem _ h)
            · exact Or.inr ⟨s', List.mem_cons_of_mem _ hs1, hs2⟩
          | ok tl => rw [hrest] at he; simp [Except.map] at he
        · intro h
          have hrest : ∃ e, cleanLoop (idx + 1) rest = .error e := by
            refine (ih (idx + 1)).mpr ?_
            rcases h with h | ⟨s', hs1, hs2⟩
            · rcases List.mem_cons.mp h with h' | h'
              · exact absurd h' (by simp)
              · exact Or.inl h'
            · rcases List.mem_cons.mp hs1 with h' | h'
              · obtain rfl : s' = s := by injection h'
                exact absurd hs2 ht
              · exact Or.inr ⟨s', h', hs2⟩
          obtain ⟨e, he⟩ := hrest
          exact ⟨e, by rw [he]; rfl⟩

theorem cleanedStrings_length (v : List PyVal)
    (h : PyVal.nonString ∉ v) : (cleanedStrings v).length = v.length := by
  induction v with
  | nil => rfl
  | cons x rest ih =>
    cases x with
    | nonString => exact absurd (List.mem_cons_self _ _) h
    | str s =>
      rw [cleanedStrings, List.filterMap_cons]
      simp only []
      rw [List.length_cons, ← cleanedStrings]
      rw [ih (fun hc => h (List.mem_cons_of_mem _ hc))]
      simp


/-- C6: likes validation fails if and only if the input is empty, contains
a non-string, contains an entry blank after trimming, or exceeds the
configured maximum count; on success it returns the trimmed entries
deduplicated by case-insensitive key, first-seen order preserved (the
output is a sublist of the trimmed input and each output entry is the
first trimmed entry bearing its key), with no case-insensitive duplicates
(pairwise distinct lowercased entries). -/
theorem likes_validation (maxLikes : Nat) (v : List PyVal) :
    ((∃ e, validate_and_clean_likes maxLikes v = .error e) ↔
      (v = [] ∨ PyVal.nonString ∈ v ∨
        (∃ s, PyVal.str s ∈ v ∧ trimWs s = []) ∨ maxLikes < v.length)) ∧
    (∀ out, validate_and_clean_likes maxLikes v = .ok out →
      out = dedupCiGo [] (cleanedStrings v) ∧
      out.Pairwise (fun a b => lowerStr a ≠ lowerStr b) ∧
      out.Sublist (cleanedStrings v) ∧
      (∀ t ∈ out,
        (cleanedStrings v).find? (fun x => lowerStr x == lowerStr t) =
          some t)) := by
  by_cases hv : v.isEmpty
  · have hnil : v = [] := List.isEmpty_iff.mp hv
    subst hnil
    constructor
    · simp [validate_and_clean_likes]
    · intro out hout
      simp [validate_and_clean_likes] at hout
  · have hne : v ≠ [] := fun h => hv (by simp [h])
    cases hcl : cleanLoop 0 v with
    | error e =>
      have herr := (cleanLoop_error_iff v 0).mp ⟨e, hcl⟩
      constructor
      · constructor
        · intro _
          rcases herr with h | h
          · exact Or.inr (Or.inl h)
          · exact Or.inr (Or.inr (Or.inl h))
        · intro _
          exact ⟨e, by rw [validate_and_clean_likes, if_neg hv, hcl]⟩
      · intro out hout
        rw [validate_and_clean_likes, if_neg hv, hcl] at hout
        exact absurd hout (by simp)
    | ok cleaned =>
      have hclean := cleanLoop_ok v 0 cleaned hcl
      subst hclean
      have hnoerr : ¬(PyVal.nonString ∈ v ∨
          ∃ s, PyVal.str s ∈ v ∧ trimWs s = []) := by
        intro h
        obtain ⟨e, he⟩ := (cleanLoop_error_iff v 0).mpr h
        rw [hcl] at he
        exact absurd he (by simp)
      have hnonstr : PyVal.nonString ∉ v := fun h => hnoerr (Or.inl h)
      have hlen_eq : (cleanedStrings v).length = v.length :=
        cleanedStrings_length v hnonstr
      have hval : validate_and_clean_likes maxLikes v =
          (if (cleanedStrings v).length > maxLikes then
            .error ("likes list too large; maximum is " ++ toString maxLikes)
          else .ok (dedupCiGo [] (cleanedStrings v))) := by
        rw [validate_and_clean_likes, if_neg hv, hcl]
      by_cases hlen : (cleanedStrings v).length > maxLikes
      · constructor
        · constructor
          · intro _
            exact Or.inr (Or.inr (Or.inr (by omega)))
          · intro _
            exact ⟨"likes list too large; maximum is " ++ toString maxLikes,
              by rw [hval, if_pos hlen]⟩
        · intro out hout
          rw [hval, if_pos hlen] at hout
          exact absurd hout (by simp)
      · have hok : validate_and_clean_likes maxLikes v =
            .ok (dedupCiGo [] (cleanedStrings v)) := by
          rw [hval, if_neg hlen]
        constructor
        · constructor
          · rintro ⟨e, he⟩
            rw [hok] at he
            exact absurd he (by simp)
          · intro h
            rcases h with h | h | h | h
            · exact absurd h hne
            · exact absurd (Or.inl h) hnoerr
            · exact absurd (Or.inr h) hnoerr
            · omega
        · intro out hout
          rw [hok] at hout
          obtain rfl : dedupCiGo [] (cleanedStrings v) = out := by
            injection hout
          refine ⟨rfl, dedupCiGo_pairwise [] _, dedupCiGo_sublist [] _, ?_⟩
          intro t ht
          exact dedupCiGo_find [] _ t ht

/-- C6 witness: the validation theorem applied at the repo's own test
vectors: success with trimming and case-insensitive dedup, and the four
failure modes. -/
theorem likes_validation_witness :
    (validate_and_clean_likes 50
        [PyVal.str " A ".toList, PyVal.str "B".toList, PyVal.str "a".toList] =
      .ok ["A".toList, "B".toList]) ∧
    (["A".toList, "B".toList] : List (List Char)).Pairwise
      (fun a b => lowerStr a ≠ lowerStr b) ∧
    (∃ e, validate_and_clean_likes 50 [] = .error e) ∧
    (∃ e, validate_and_clean_likes 50
        [PyVal.str "  ".toList, PyVal.str "OK".toList] = .error e) ∧
    (∃ e, validate_and_clean_likes 50 [PyVal.nonString] = .error e) ∧
    (∃ e, validate_and_clean_likes 1
        [PyVal.str "A".toList, PyVal.str "B".toList] = .error e) := by
  refine ⟨by decide, ?_, ?_, ?_, ?_, ?_⟩
  · have h := (likes_validation 50
      [PyVal.str " A ".toList, PyVal.str "B".toList, PyVal.str "a".toList]).2
      ["A".toList, "B".toList] (by decide)
    exact h.2.1
  · exact (likes_validation 50 []).1.mpr (Or.inl rfl)
  · exact (likes_validation 50
      [PyVal.str "  ".toList, PyVal.str "OK".toList]).1.mpr
      (Or.inr (Or.inr (Or.inl ⟨"  ".toList, by decide, by decide⟩)))
  · exact (likes_validation 50 [PyVal.nonString]).1.mpr
      (Or.inr (Or.inl (by decide)))
  · exact (likes_validation 1
      [PyVal.str "A".toList, PyVal.str "B".toList]).1.mpr
      (Or.inr (Or.inr (Or.inr (by decide))))


/-- C9: `build_prompt` is pure and deterministic — it is a function of the
likes list and requested count alone (the embedding reads no other state,
mirroring the source, which uses no randomness or time), so equal inputs
yield byte-identical prompt strings. -/
theorem build_prompt_deterministic (l1 l2 : List String) (n1 n2 : Int)
    (hl : l1 = l2) (hn : n1 = n2) : build_prompt l1 n1 = build_prompt l2 n2 := by
  rw [hl, hn]

/-- C9 witness: determinism at the spec's example input. -/
theorem build_prompt_deterministic_witness :
    (["Breaking Bad", "Fleabag"] : List String) = ["Breaking Bad", "Fleabag"] ∧
    (5 : Int) = 5 ∧
    build_prompt ["Breaking Bad", "Fleabag"] 5 =
      build_prompt ["Breaking Bad", "Fleabag"] 5 :=
  ⟨rfl, rfl, build_prompt_deterministic _ _ _ _ rfl rfl⟩

/-- C2: whenever validation, prompt building and the backend call all
succeed but the parser yields an empty list, the Service Facade returns
the typed failure `NoRecommendations`; and the facade never returns a
success carrying zero recommendations.  (Facade modelled from the spec —
see `recommend_facade`.) -/
theorem facade_empty_parse_fails (maxLikes : Nat) (n : Int)
    (backend : String → Except ClientFailure String) (payload : List PyVal) :
    (∀ likes text,
      validate_and_clean_likes maxLikes payload = .ok likes →
      backend (build_prompt (likes.map (fun l => String.mk l)) n) =
        .ok text →
      parse_recommendations text.toList n = [] →
      recommend_facade maxLikes n backend payload =
        .error FacadeFailure.noRecommendations) ∧
    (∀ recs, recommend_facade maxLikes n backend payload = .ok recs →
      recs ≠ []) := by
  constructor
  · intro likes text hval hbk hparse
    simp [recommend_facade, hval, hbk]
    exact hparse
  · intro recs hok
    cases hval : validate_and_clean_likes maxLikes payload with
    | error m => simp [recommend_facade, hval] at hok
    | ok likes =>
      cases hbk : backend (build_prompt (likes.map (fun l => String.mk l)) n) with
      | error e => cases e <;> simp [recommend_facade, hval, hbk] at hok
      | ok text =>
        by_cases hemp : parse_recommendations text.toList n = []
        · simp only [recommend_facade, hval, hbk] at hok
          simp only [List.isEmpty_iff] at hok
          rw [if_pos hemp] at hok
          exact absurd hok (by simp)
        · simp only [recommend_facade, hval, hbk] at hok
          simp only [List.isEmpty_iff] at hok
          rw [if_neg hemp] at hok
          obtain rfl : parse_recommendations text.toList n = recs := by
            injection hok
          exact hemp

/-- C2 witness: a stubbed backend whose reply parses to nothing yields the
`NoRecommendations` failure. -/
theorem facade_empty_parse_fails_witness :
    recommend_facade 50 10 (fun _ => .ok "")
        [PyVal.str "Breaking Bad".toList, PyVal.str "Fleabag".toList] =
      .error FacadeFailure.noRecommendations :=
  (facade_empty_parse_fails 50 10 (fun _ => .ok "")
      [PyVal.str "Breaking Bad".toList, PyVal.str "Fleabag".toList]).1
    ["Breaking Bad".toList, "Fleabag".toList] "" (by decide) rfl (by decide)

end RecommenderModel
